import Mathlib

/-!
Verification development for the student-productivity survey pipeline.

Part 1 embeds the client glue that exists as code in the repository:
the axios service (`getPrediction` in the unnamed api module) and the
React form (`App.jsx`).  JavaScript numbers are modelled as exact
rationals plus a distinguished `nan`, and the fragment of the
`Number()` coercion the form relies on (whitespace trimming, the
empty string mapping to `0`, signed decimal literals with optional
`e`/`E` exponents — the number input's valid floating-point grammar —
and everything else mapping to `NaN`) is embedded as `jsToNumber`.

Part 2 models the preprocessing/inference pipeline (normalize, clean,
engineer) that the repository describes but whose code is not among
the source files; those definitions carry `Modelled from the spec:`
doc comments.
-/

set_option autoImplicit false

namespace StudentPipeline

/-- A JavaScript number: an exact rational, or the `NaN` produced by a
failed `Number()` coercion. -/
inductive JsNum where
  | num (q : ℚ)
  | nan
  deriving DecidableEq, Repr

/-- Drop leading whitespace characters. -/
def trimL : List Char → List Char
  | [] => []
  | c :: cs => if c.isWhitespace then trimL cs else c :: cs

/-- Drop surrounding whitespace characters, the trimming `Number()` and
the range parser perform. -/
def trimChars (cs : List Char) : List Char :=
  (trimL (trimL cs).reverse).reverse

/-- Whether the first list is an initial segment of the second. -/
def leads : List Char → List Char → Bool
  | [], _ => true
  | _ :: _, [] => false
  | p :: ps, c :: cs => p = c && leads ps cs

/-- Split a character list on a separator character. -/
def splitOnChar (sep : Char) : List Char → List (List Char)
  | [] => [[]]
  | c :: cs =>
    let r := splitOnChar sep cs
    if c = sep then [] :: r
    else
      match r with
      | [] => [[c]]
      | g :: gs => (c :: g) :: gs

/-- Parse an all-digit character list into a natural number,
accumulator style; any non-digit character makes the parse fail. -/
def parseNatAux : ℕ → List Char → Option ℕ
  | acc, [] => some acc
  | acc, c :: cs =>
    if c.isDigit then parseNatAux (acc * 10 + (c.toNat - 48)) cs else none

/-- Parse a nonempty digit character list into a natural number. -/
def parseNatChars (cs : List Char) : Option ℕ :=
  match cs with
  | [] => none
  | _ :: _ => parseNatAux 0 cs

/-- Split a character list at the first `e` or `E`, the exponent marker
of JavaScript numeric literals; the second component is the exponent
part when a marker is present. -/
def splitOnExpMarker : List Char → List Char × Option (List Char)
  | [] => ([], none)
  | c :: cs =>
    if c = 'e' || c = 'E' then ([], some cs)
    else
      let r := splitOnExpMarker cs
      (c :: r.1, r.2)

/-- Parse an unsigned decimal mantissa: `"12"`, `"12.5"`, `"12."`, or
`".5"`, exactly the forms `Number()` accepts before an optional
exponent. -/
def parseMantissa (cs : List Char) : Option ℚ :=
  match splitOnChar '.' cs with
  | [ip] => (parseNatChars ip).map (fun n => (n : ℚ))
  | [ip, fp] =>
    match ip, fp with
    | [], [] => none
    | _ :: _, [] => (parseNatChars ip).map (fun n => (n : ℚ))
    | [], _ :: _ =>
      (parseNatChars fp).map (fun f => (f : ℚ) / ((10 : ℚ) ^ fp.length))
    | _ :: _, _ :: _ =>
      match parseNatChars ip, parseNatChars fp with
      | some n, some f =>
        some ((n : ℚ) + (f : ℚ) / ((10 : ℚ) ^ fp.length))
      | _, _ => none
  | _ => none

/-- Parse a signed exponent: digits with an optional leading sign. -/
def parseExpChars (cs : List Char) : Option ℤ :=
  match cs with
  | '-' :: rest => (parseNatChars rest).map (fun n => -(n : ℤ))
  | '+' :: rest => (parseNatChars rest).map (fun n => (n : ℤ))
  | _ => (parseNatChars cs).map (fun n => (n : ℤ))

/-- Parse a signed decimal literal with an optional `e`/`E` exponent
(`"12"`, `"-3.5"`, `"+7"`, `"1e5"`, `"1.5e-2"`) into an exact rational.
This covers every finite numeric literal the form's number input can
hold (the HTML valid floating-point grammar) together with the leading
`+` and bare-dot forms `Number()` additionally accepts. -/
def parseRatChars (cs : List Char) : Option ℚ :=
  let sb : ℚ × List Char :=
    match cs with
    | '-' :: rest => (-1, rest)
    | '+' :: rest => (1, rest)
    | _ => (1, cs)
  let me := splitOnExpMarker sb.2
  match parseMantissa me.1, me.2 with
  | some m, none => some (sb.1 * m)
  | some m, some ecs =>
    (parseExpChars ecs).map (fun e => sb.1 * m * ((10 : ℚ) ^ e))
  | none, _ => none

/-- Parse a signed decimal literal string, with optional exponent, into
an exact rational. -/
def parseRat? (s : String) : Option ℚ :=
  parseRatChars s.data

/-- The JavaScript `Number()` coercion on the fragment of strings the
form produces: surrounding whitespace is trimmed, the empty string
coerces to `0`, a decimal literal (with optional exponent) coerces to
its value, and any other text coerces to `NaN`. -/
def jsToNumber (s : String) : JsNum :=
  let t := trimChars s.data
  if t = [] then JsNum.num 0
  else
    match parseRatChars t with
    | some q => JsNum.num q
    | none => JsNum.nan

/-- The JSON body the api module posts to the backend:
`{ input: [inputValue] }`. -/
structure PredictRequest where
  input : List JsNum
  deriving DecidableEq, Repr

/-- The JSON body a successful backend response carries; the client
reads its `prediction` field. -/
structure PredictResponse where
  prediction : ℚ
  deriving DecidableEq, Repr

/-- An error raised by the POST request (network failure, non-2xx
status, and so on), identified by its message. -/
structure JsError where
  msg : String
  deriving DecidableEq, Repr

/-- One console log line; the api module writes
`console.error('Prediction Error:', error)` in its catch block. -/
inductive LogLine where
  | errorLog (e : JsError)
  deriving DecidableEq, Repr

/-- Everything observable about one call to the api module: the body it
posted, the value it returned (`none` models JavaScript `null`), and
what it logged to the console. -/
structure ClientResult where
  sent : PredictRequest
  value : Option ℚ
  logs : List LogLine
  deriving DecidableEq, Repr

/-- The request body built by `getPrediction`: `{ input: [inputValue] }`. -/
def predictBody (v : JsNum) : PredictRequest :=
  { input := [v] }

/-- The api module's `getPrediction`, with the backend abstracted as a
function from request body to response-or-error.  On success it returns
`response.data.prediction`; on failure its catch block logs the error
and returns `null` (modelled as `none`). -/
def getPrediction (server : PredictRequest → Except JsError PredictResponse)
    (inputValue : JsNum) : ClientResult :=
  let body := predictBody inputValue
  match server body with
  | Except.ok resp => { sent := body, value := some resp.prediction, logs := [] }
  | Except.error e => { sent := body, value := none, logs := [LogLine.errorLog e] }

/-- The form's `handlePredict`: it coerces the text-field state with
`Number()` and passes the result to `getPrediction`; the returned value
becomes the `prediction` state. -/
def appPredict (server : PredictRequest → Except JsError PredictResponse)
    (inputValue : String) : ClientResult :=
  getPrediction server (jsToNumber inputValue)

/-- What the form renders after an interaction: the returned scalar when
`prediction !== null`, and nothing otherwise. -/
def displayedOf (r : ClientResult) : Option ℚ :=
  r.value

/-! ### The preprocessing pipeline, modelled from the spec

The repository's source files contain only the client glue above; the
normalize/clean/engineer pipeline is described by the specification but
its code is not among the source files, so it is modelled here from the
spec's words. -/

/-- Modelled from the spec: a raw survey value — a string, a number, or
the absent marker.  A `RawRecord` maps field names to such values. -/
inductive RawValue where
  | str (s : String)
  | num (q : ℚ)
  | absent
  deriving DecidableEq, Repr

/-- Modelled from the spec: one survey response, a mapping from field
name to untyped value. -/
abbrev RawRecord : Type := List (String × RawValue)

/-- Modelled from the spec: a typed survey value after normalization — a
continuous number, a categorical label (ordinal or nominal), or a
missing marker that the cleaning stage will fill. -/
inductive TypedValue where
  | cont (q : ℚ)
  | cat (label : String)
  | missing
  deriving DecidableEq, Repr

/-- Modelled from the spec: a typed record, one typed value per declared
field. -/
abbrev TypedRecord : Type := List (String × TypedValue)

/-- First value bound to a key in an association list. -/
def lookupR {α : Type} (l : List (String × α)) (k : String) : Option α :=
  match l with
  | [] => none
  | (k', v) :: rest => if k' = k then some v else lookupR rest k

/-- Membership test for label lists, used wherever the pipeline checks a
label against a declared set or trained vocabulary. -/
def containsStr (l : List String) (x : String) : Bool :=
  match l with
  | [] => false
  | y :: ys => (y == x) || containsStr ys x

/-- Modelled from the spec: a derived composite feature — a ratio with
the fixed `+1` denominator-safety rule (`num / (den + 1)`), or a
workload-style sum of two resolved fields. -/
inductive DerivedSpec where
  | ratioOf (name numf denf : String)
  | sumOf (name f1 f2 : String)
  deriving DecidableEq, Repr

/-- Name of a derived feature. -/
def DerivedSpec.name : DerivedSpec → String
  | DerivedSpec.ratioOf n _ _ => n
  | DerivedSpec.sumOf n _ _ => n

/-- Modelled from the spec: the declared field schema and configuration —
the half-step for open-ended ranges, the continuous fields, the derived
features, and the ordinal and nominal fields each with their declared
label set (for ordinal fields, the configured total order of labels),
all in declaration order. -/
structure PipelineConfig where
  halfStep : ℚ
  contFields : List String
  derived : List DerivedSpec
  ordFields : List (String × List String)
  nomFields : List (String × List String)
  deriving DecidableEq, Repr

/-- Names of the categorical (ordinal then nominal) fields. -/
def catFieldNames (cfg : PipelineConfig) : List String :=
  (cfg.ordFields ++ cfg.nomFields).map Prod.fst

/-- All declared field names of the schema. -/
def schemaFieldNames (cfg : PipelineConfig) : List String :=
  cfg.contFields ++ catFieldNames cfg

/-- Modelled from the spec: the pipeline's error taxonomy for the three
preprocessing stages — `SchemaError` at normalization,
`UnseenCategoryError` at cleaning, `SchemaMismatchError` at feature
engineering. -/
inductive PipeError where
  | schemaError (field : String)
  | unseenCategory (field label : String)
  | schemaMismatch (field : String)
  deriving DecidableEq, Repr

/-- Modelled from the spec: the shape a textual survey value can take —
a closed range `"a-b"`, an open-ended range (`"more than N"` /
`"less than N"`), or a plain numeric literal. -/
inductive RangeForm where
  | closed (a b : ℚ)
  | moreThan (n : ℚ)
  | lessThan (n : ℚ)
  | plain (q : ℚ)
  deriving DecidableEq, Repr

/-- Modelled from the spec: recognize the textual shape of a continuous
survey value.  Negative literals do not occur in the survey domain, so a
dash always separates the two endpoints of a closed range. -/
def classifyRange (s : String) : Option RangeForm :=
  let t := trimChars s.data
  if leads "more than ".data t then
    (parseRatChars (trimChars (t.drop 10))).map RangeForm.moreThan
  else if leads "less than ".data t then
    (parseRatChars (trimChars (t.drop 10))).map RangeForm.lessThan
  else
    match splitOnChar '-' t with
    | [x] => (parseRatChars (trimChars x)).map RangeForm.plain
    | [x, y] =>
      match parseRatChars (trimChars x), parseRatChars (trimChars y) with
      | some a, some b => some (RangeForm.closed a b)
      | _, _ => none
    | _ => none

/-- Modelled from the spec: the configured midpoint rule — a closed range
`"a-b"` is represented by `(a+b)/2`, an open-ended range by `N` plus or
minus the configured half-step, and a plain literal by itself. -/
def repValue (halfStep : ℚ) : RangeForm → ℚ
  | RangeForm.closed a b => (a + b) / 2
  | RangeForm.moreThan n => n + halfStep
  | RangeForm.lessThan n => n - halfStep
  | RangeForm.plain q => q

/-- Modelled from the spec: normalize one continuous field's raw value.
An absent value becomes the missing marker (filled later by `clean`); a
number passes through; a string must parse as a range or literal, else
`SchemaError`. -/
def normValue (halfStep : ℚ) (field : String) :
    Option RawValue → Except PipeError TypedValue
  | none => Except.ok TypedValue.missing
  | some RawValue.absent => Except.ok TypedValue.missing
  | some (RawValue.num q) => Except.ok (TypedValue.cont q)
  | some (RawValue.str s) =>
    match classifyRange s with
    | some form => Except.ok (TypedValue.cont (repValue halfStep form))
    | none => Except.error (PipeError.schemaError field)

/-- Modelled from the spec: normalize the continuous fields in
declaration order. -/
def normCont (halfStep : ℚ) (r : RawRecord) :
    List String → Except PipeError TypedRecord
  | [] => Except.ok []
  | f :: fs =>
    match normValue halfStep f (lookupR r f) with
    | Except.error e => Except.error e
    | Except.ok tv =>
      match normCont halfStep r fs with
      | Except.error e => Except.error e
      | Except.ok rest => Except.ok ((f, tv) :: rest)

/-- Modelled from the spec: normalize the categorical fields in
declaration order.  A label outside the field's declared category set
fails with `SchemaError`, never a silent default; an absent value
becomes the missing marker. -/
def normCat (r : RawRecord) :
    List (String × List String) → Except PipeError TypedRecord
  | [] => Except.ok []
  | (f, labels) :: fs =>
    let step : Except PipeError TypedValue :=
      match lookupR r f with
      | none => Except.ok TypedValue.missing
      | some RawValue.absent => Except.ok TypedValue.missing
      | some (RawValue.num _) => Except.error (PipeError.schemaError f)
      | some (RawValue.str l) =>
        match containsStr labels l with
        | true => Except.ok (TypedValue.cat l)
        | false => Except.error (PipeError.schemaError f)
    match step with
    | Except.error e => Except.error e
    | Except.ok tv =>
      match normCat r fs with
      | Except.error e => Except.error e
      | Except.ok rest => Except.ok ((f, tv) :: rest)

/-- Modelled from the spec: `normalize(raw) -> TypedRecord`.  A raw field
absent from the declared schema is rejected with `SchemaError`; each
declared field is typed by its kind. -/
def normalize (cfg : PipelineConfig) (r : RawRecord) :
    Except PipeError TypedRecord :=
  match r.find? (fun kv => ¬ (schemaFieldNames cfg).contains kv.1) with
  | some kv => Except.error (PipeError.schemaError kv.1)
  | none =>
    match normCont cfg.halfStep r cfg.contFields with
    | Except.error e => Except.error e
    | Except.ok tc =>
      match normCat r (cfg.ordFields ++ cfg.nomFields) with
      | Except.error e => Except.error e
      | Except.ok tk => Except.ok (tc ++ tk)

/-- Modelled from the spec: the frozen training-time statistics for one
continuous column — median for missing-value fill, and the first and
third quartiles from which the clipping bounds are computed. -/
structure ContStats where
  median : ℚ
  q1 : ℚ
  q3 : ℚ
  deriving DecidableEq, Repr

/-- Modelled from the spec: the frozen training-time statistics for one
categorical column — the mode for missing-value fill and the trained
vocabulary of labels observed at training time. -/
structure CatStats where
  mode : String
  vocab : List String
  deriving DecidableEq, Repr

/-- Modelled from the spec: `ColumnStats`, computed once from the
training set and reused verbatim at inference, together with the
configurable IQR multiplier `k` (default 1.5). -/
structure ColumnStats where
  k : ℚ
  contStats : List (String × ContStats)
  catStats : List (String × CatStats)
  deriving DecidableEq, Repr

/-- Modelled from the spec: the lower clipping bound `Q1 − k·IQR`. -/
def loBound (cs : ContStats) (k : ℚ) : ℚ :=
  cs.q1 - k * (cs.q3 - cs.q1)

/-- Modelled from the spec: the upper clipping bound `Q3 + k·IQR`. -/
def hiBound (cs : ContStats) (k : ℚ) : ℚ :=
  cs.q3 + k * (cs.q3 - cs.q1)

/-- Clip a value into the interval `[lo, hi]`. -/
def clip (lo hi v : ℚ) : ℚ :=
  max lo (min hi v)

/-- Modelled from the spec: outlier clipping of one continuous value to
`[Q1 − k·IQR, Q3 + k·IQR]`. -/
def clipStats (cs : ContStats) (k v : ℚ) : ℚ :=
  clip (loBound cs k) (hiBound cs k) v

/-- Modelled from the spec: a record with no missing values — resolved
continuous values and resolved categorical labels, keyed by field. -/
structure CleanRecord where
  contVals : List (String × ℚ)
  catVals : List (String × String)
  deriving DecidableEq, Repr

/-- Modelled from the spec: resolve one continuous field's typed value —
a missing (or absent) value becomes the training-time median, a
continuous value passes through, and a categorical value is shape skew
(`none`). -/
def contFill (cs : ContStats) : Option TypedValue → Option ℚ
  | some (TypedValue.cont q) => some q
  | some TypedValue.missing => some cs.median
  | none => some cs.median
  | some (TypedValue.cat _) => none

/-- Modelled from the spec: resolve one categorical field's typed value —
a missing (or absent) value becomes the training-time mode, a label
passes through, and a continuous value is shape skew (`none`). -/
def catFill (cs : CatStats) : Option TypedValue → Option String
  | some (TypedValue.cat l) => some l
  | some TypedValue.missing => some cs.mode
  | none => some cs.mode
  | some (TypedValue.cont _) => none

/-- Modelled from the spec: clean the continuous fields — a missing value
is replaced by the training-time median, then every value is clipped to
the frozen bounds.  A field whose frozen statistics are absent, or whose
typed value has the wrong kind, is artifact/shape skew and fails with
`SchemaMismatchError`. -/
def cleanCont (k : ℚ) (t : TypedRecord) (stats : List (String × ContStats)) :
    List String → Except PipeError (List (String × ℚ))
  | [] => Except.ok []
  | f :: fs =>
    match lookupR stats f with
    | none => Except.error (PipeError.schemaMismatch f)
    | some cs =>
      match contFill cs (lookupR t f) with
      | none => Except.error (PipeError.schemaMismatch f)
      | some q =>
        match cleanCont k t stats fs with
        | Except.error e => Except.error e
        | Except.ok rest => Except.ok ((f, clipStats cs k q) :: rest)

/-- Modelled from the spec: clean the categorical fields — a missing
value is replaced by the training-time mode, and any label (filled or
supplied) outside the trained vocabulary fails with
`UnseenCategoryError`, never a silent bucket. -/
def cleanCat (t : TypedRecord) (stats : List (String × CatStats)) :
    List String → Except PipeError (List (String × String))
  | [] => Except.ok []
  | f :: fs =>
    match lookupR stats f with
    | none => Except.error (PipeError.schemaMismatch f)
    | some cs =>
      match catFill cs (lookupR t f) with
      | none => Except.error (PipeError.schemaMismatch f)
      | some l =>
        match containsStr cs.vocab l with
        | true =>
          match cleanCat t stats fs with
          | Except.error e => Except.error e
          | Except.ok rest => Except.ok ((f, l) :: rest)
        | false => Except.error (PipeError.unseenCategory f l)

/-- Modelled from the spec: `clean(t, stats) -> CleanRecord`, applying
the missing-value and outlier policy per column kind with the frozen
`ColumnStats`. -/
def clean (cfg : PipelineConfig) (t : TypedRecord) (stats : ColumnStats) :
    Except PipeError CleanRecord :=
  match cleanCont stats.k t stats.contStats cfg.contFields with
  | Except.error e => Except.error e
  | Except.ok cv =>
    match cleanCat t stats.catStats (catFieldNames cfg) with
    | Except.error e => Except.error e
    | Except.ok kv => Except.ok { contVals := cv, catVals := kv }

/-- Rank of a label in a configured total order of labels. -/
def rankOf : List String → String → Option ℕ
  | [], _ => none
  | x :: xs, l => if x = l then some 0 else (rankOf xs l).map (· + 1)

/-- Insert a string into an alphabetically sorted list of strings. -/
def insertSorted (x : String) : List String → List String
  | [] => [x]
  | y :: ys => if x ≤ y then x :: y :: ys else y :: insertSorted x ys

/-- Alphabetical insertion sort for label sets, fixing the one-hot
feature order. -/
def sortLabels (ls : List String) : List String :=
  ls.foldr insertSorted []

/-- Modelled from the spec: the one-hot feature name for a nominal field
and one of its labels. -/
def oneHotName (f label : String) : String :=
  f ++ "=" ++ label

/-- Modelled from the spec: an ordered sequence of named numeric
features, the final encoding of a CleanRecord. -/
abbrev FeatureVector : Type := List (String × ℚ)

/-- Modelled from the spec: the raw continuous features, in declaration
order; every declared field must be present in the clean record. -/
def engCont (cv : List (String × ℚ)) :
    List String → Except PipeError FeatureVector
  | [] => Except.ok []
  | f :: fs =>
    match lookupR cv f with
    | none => Except.error (PipeError.schemaMismatch f)
    | some q =>
      match engCont cv fs with
      | Except.error e => Except.error e
      | Except.ok rest => Except.ok ((f, q) :: rest)

/-- Modelled from the spec: the derived features, in declaration order —
ratios use the fixed `num / (den + 1)` denominator-safety rule, sums add
the two resolved fields. -/
def engDerived (cv : List (String × ℚ)) :
    List DerivedSpec → Except PipeError FeatureVector
  | [] => Except.ok []
  | d :: ds =>
    let v? : Except PipeError (String × ℚ) :=
      match d with
      | DerivedSpec.ratioOf n nf df =>
        match lookupR cv nf, lookupR cv df with
        | some a, some b => Except.ok (n, a / (b + 1))
        | _, _ => Except.error (PipeError.schemaMismatch n)
      | DerivedSpec.sumOf n f1 f2 =>
        match lookupR cv f1, lookupR cv f2 with
        | some a, some b => Except.ok (n, a + b)
        | _, _ => Except.error (PipeError.schemaMismatch n)
    match v? with
    | Except.error e => Except.error e
    | Except.ok p =>
      match engDerived cv ds with
      | Except.error e => Except.error e
      | Except.ok rest => Except.ok (p :: rest)

/-- Modelled from the spec: the ordinal features, in declaration order,
each the integer rank of the label in the configured total order; a
label without a rank is shape skew and fails with
`SchemaMismatchError`. -/
def engOrd (kv : List (String × String)) :
    List (String × List String) → Except PipeError FeatureVector
  | [] => Except.ok []
  | (f, labels) :: fs =>
    match lookupR kv f with
    | none => Except.error (PipeError.schemaMismatch f)
    | some l =>
      match rankOf labels l with
      | none => Except.error (PipeError.schemaMismatch f)
      | some rank =>
        match engOrd kv fs with
        | Except.error e => Except.error e
        | Except.ok rest => Except.ok ((f, (rank : ℚ)) :: rest)

/-- Modelled from the spec: the nominal features, in declaration order,
each field expanded to one-hot indicator features in alphabetically
sorted label order; a label that would require a feature absent from the
frozen schema fails with `SchemaMismatchError`. -/
def engNom (kv : List (String × String)) :
    List (String × List String) → Except PipeError FeatureVector
  | [] => Except.ok []
  | (f, labels) :: fs =>
    match lookupR kv f with
    | none => Except.error (PipeError.schemaMismatch f)
    | some l =>
      match containsStr labels l with
      | true =>
        match engNom kv fs with
        | Except.error e => Except.error e
        | Except.ok rest =>
          Except.ok
            (((sortLabels labels).map
                (fun lb => (oneHotName f lb, if lb = l then (1 : ℚ) else 0)))
              ++ rest)
      | false => Except.error (PipeError.schemaMismatch f)

/-- Modelled from the spec: `engineer(c) -> FeatureVector`, fixing
feature order as raw continuous fields, then derived fields, then
ordinal fields, then nominal fields one-hot expanded in sorted label
order. -/
def engineer (cfg : PipelineConfig) (c : CleanRecord) :
    Except PipeError FeatureVector :=
  match engCont c.contVals cfg.contFields with
  | Except.error e => Except.error e
  | Except.ok v1 =>
    match engDerived c.contVals cfg.derived with
    | Except.error e => Except.error e
    | Except.ok v2 =>
      match engOrd c.catVals cfg.ordFields with
      | Except.error e => Except.error e
      | Except.ok v3 =>
        match engNom c.catVals cfg.nomFields with
        | Except.error e => Except.error e
        | Except.ok v4 => Except.ok (v1 ++ v2 ++ v3 ++ v4)

/-- Modelled from the spec: the frozen `FeatureSchema` — the ordered
list of feature names fixed at training time. -/
def featureSchema (cfg : PipelineConfig) : List String :=
  cfg.contFields
    ++ cfg.derived.map DerivedSpec.name
    ++ cfg.ordFields.map Prod.fst
    ++ cfg.nomFields.flatMap
        (fun p => (sortLabels p.2).map (oneHotName p.1))

/-- Modelled from the spec: the inference-side preprocessing path
`engineer(clean(normalize(r)))` under frozen artifacts, every
stage-local error propagating unchanged to the caller. -/
def pipeline (cfg : PipelineConfig) (stats : ColumnStats) (r : RawRecord) :
    Except PipeError FeatureVector :=
  match normalize cfg r with
  | Except.error e => Except.error e
  | Except.ok t =>
    match clean cfg t stats with
    | Except.error e => Except.error e
    | Except.ok c => engineer cfg c

/-- Every ratio or sum in the derived-feature list references declared
continuous fields only. -/
def derivedWF (cfg : PipelineConfig) : Bool :=
  cfg.derived.all fun d =>
    match d with
    | DerivedSpec.ratioOf _ nf df =>
      containsStr cfg.contFields nf && containsStr cfg.contFields df
    | DerivedSpec.sumOf _ f1 f2 =>
      containsStr cfg.contFields f1 && containsStr cfg.contFields f2

/-- The frozen categorical statistics are compatible with the declared
schema: every trained vocabulary label of a categorical field belongs to
that field's declared label set. -/
def statsCompat (cfg : PipelineConfig) (stats : ColumnStats) : Bool :=
  (cfg.ordFields ++ cfg.nomFields).all fun p =>
    match lookupR stats.catStats p.1 with
    | some cs => cs.vocab.all (containsStr p.2)
    | none => true

/-! ### Concrete demonstration artifacts

A small configuration and frozen statistics exercising every field
kind, used by the concrete witnesses below. -/

/-- A demonstration schema: two continuous fields, two derived features,
one ordinal field and one nominal field. -/
def demoCfg : PipelineConfig :=
  { halfStep := 1/2
  , contFields := ["study_hours_per_day", "work_hours_per_week"]
  , derived :=
      [ DerivedSpec.ratioOf "study_efficiency" "study_hours_per_day"
          "work_hours_per_week"
      , DerivedSpec.sumOf "workload" "study_hours_per_day"
          "work_hours_per_week" ]
  , ordFields := [("sleep_quality", ["Low", "Medium", "High"])]
  , nomFields := [("major", ["CS", "Arts", "Biology"])] }

/-- Demonstration frozen column statistics matching `demoCfg`. -/
def demoStats : ColumnStats :=
  { k := 3/2
  , contStats :=
      [ ("study_hours_per_day", { median := 3, q1 := 2, q3 := 5 })
      , ("work_hours_per_week", { median := 8, q1 := 4, q3 := 12 }) ]
  , catStats :=
      [ ("sleep_quality", { mode := "Medium", vocab := ["Low", "Medium", "High"] })
      , ("major", { mode := "CS", vocab := ["CS", "Arts"] }) ] }

/-- A demonstration raw record with every field populated and in
domain; `study_hours_per_day` arrives as the textual range `"1-2"`. -/
def demoRecord : RawRecord :=
  [ ("study_hours_per_day", RawValue.str "1-2")
  , ("work_hours_per_week", RawValue.num 10)
  , ("sleep_quality", RawValue.str "Medium")
  , ("major", RawValue.str "CS") ]

/-- The typed record `normalize` produces from `demoRecord`. -/
def demoTyped : TypedRecord :=
  [ ("study_hours_per_day", TypedValue.cont (3/2))
  , ("work_hours_per_week", TypedValue.cont 10)
  , ("sleep_quality", TypedValue.cat "Medium")
  , ("major", TypedValue.cat "CS") ]

/-- The clean record `clean` produces from `demoTyped` under
`demoStats`. -/
def demoClean : CleanRecord :=
  { contVals := [("study_hours_per_day", 3/2), ("work_hours_per_week", 10)]
  , catVals := [("sleep_quality", "Medium"), ("major", "CS")] }

/-- The feature vector the full demo pipeline produces. -/
def demoFeatureVec : FeatureVector :=
  [ ("study_hours_per_day", 3/2), ("work_hours_per_week", 10)
  , ("study_efficiency", 3/22), ("workload", 23/2)
  , ("sleep_quality", 1)
  , ("major=Arts", 0), ("major=Biology", 0), ("major=CS", 1) ]

/-- A typed record like `demoTyped` whose `major` label `"Biology"` is
declared in the schema but absent from the trained vocabulary of
`demoStats`. -/
def demoUnseenTyped : TypedRecord :=
  [ ("study_hours_per_day", TypedValue.cont 3)
  , ("work_hours_per_week", TypedValue.cont 8)
  , ("sleep_quality", TypedValue.cat "Medium")
  , ("major", TypedValue.cat "Biology") ]

/-- Whether an optional typed value holds a categorical label. -/
def isCatVal : Option TypedValue → Bool
  | some (TypedValue.cat _) => true
  | _ => false

/-- Whether an optional typed value holds a continuous number. -/
def isContVal : Option TypedValue → Bool
  | some (TypedValue.cont _) => true
  | _ => false

/-- The frozen statistics cover every declared field of the schema and
the typed record carries no wrong-kind value: every continuous field has
continuous statistics and no categorical typed value, and every
categorical field has categorical statistics and no continuous typed
value.  Any output of `normalize` under frozen training artifacts
satisfies this. -/
def statsCoverBool (cfg : PipelineConfig) (stats : ColumnStats)
    (t : TypedRecord) : Bool :=
  (cfg.contFields.all fun f =>
      (lookupR stats.contStats f).isSome && !(isCatVal (lookupR t f))) &&
  ((catFieldNames cfg).all fun f =>
      (lookupR stats.catStats f).isSome && !(isContVal (lookupR t f)))

/-- Whether a derived feature's referenced fields resolve in a clean
record's continuous values. -/
def derivedRefsOk (cv : List (String × ℚ)) : DerivedSpec → Bool
  | DerivedSpec.ratioOf _ nf df =>
    (lookupR cv nf).isSome && (lookupR cv df).isSome
  | DerivedSpec.sumOf _ f1 f2 =>
    (lookupR cv f1).isSome && (lookupR cv f2).isSome

/-- A backend stub that always answers with prediction `7`. -/
def okServer : PredictRequest → Except JsError PredictResponse :=
  fun _ => Except.ok { prediction := 7 }

/-- A demonstration request error. -/
def demoErr : JsError :=
  { msg := "Network Error" }

/-- A backend stub whose POST always fails with `demoErr`. -/
def failServer : PredictRequest → Except JsError PredictResponse :=
  fun _ => Except.error demoErr

/-! ### Helper lemmas -/

lemma getPrediction_sent (server : PredictRequest → Except JsError PredictResponse)
    (v : JsNum) : (getPrediction server v).sent = predictBody v := by
  unfold getPrediction
  cases h : server (predictBody v) <;> simp [h]

lemma appPredict_sent (server : PredictRequest → Except JsError PredictResponse)
    (s : String) : (appPredict server s).sent = { input := [jsToNumber s] } := by
  simpa [appPredict, predictBody] using getPrediction_sent server (jsToNumber s)

/-! ### Claim theorems for the client layer -/

/-- C1, counterexample: the claim that any failure while producing the
prediction reaches the caller of `getPrediction` unchanged is false on
the code — when the POST fails, the catch block in `getPrediction`
swallows the error, logs it, and hands the caller the stand-in value
`null` instead of the original error. -/
theorem c1_error_swallowed_counterexample :
    (getPrediction failServer (JsNum.num 1)).value = none ∧
      (getPrediction failServer (JsNum.num 1)).logs = [LogLine.errorLog demoErr] := by
  constructor <;> rfl

/-- C1, amended: whenever the POST issued by `getPrediction` fails, the
function catches the error, logs `Prediction Error:` with it to the
console, and returns `null` to its caller; the caller receives the null
stand-in, never the original error. -/
theorem c1_catch_returns_null
    (server : PredictRequest → Except JsError PredictResponse)
    (v : JsNum) (e : JsError) (h : server (predictBody v) = Except.error e) :
    getPrediction server v =
      { sent := predictBody v, value := none, logs := [LogLine.errorLog e] } := by
  simp [getPrediction, h]

/-- C1, witness: the amended statement at the concrete failing backend. -/
theorem c1_catch_returns_null_witness :
    getPrediction failServer (JsNum.num 1) =
      { sent := predictBody (JsNum.num 1), value := none
      , logs := [LogLine.errorLog demoErr] } :=
  c1_catch_returns_null failServer (JsNum.num 1) demoErr rfl

/-- C2, counterexample: the claim that the client layer forwards the
caller-supplied value untransformed is false on the code — the form
coerces the typed text with `Number()` and the api module wraps the
result in `{ input: [...] }`, so the user text `"2"` reaches the
backend as an object holding the number `2`, and the distinct user
inputs `""` and `"0"` become the same request. -/
theorem c2_transform_counterexample :
    (appPredict okServer "2").sent = { input := [JsNum.num 2] } ∧
      (appPredict okServer "").sent = (appPredict okServer "0").sent ∧
      "" ≠ "0" := by
  refine ⟨?_, ?_, by decide⟩ <;>
    simp +decide [appPredict, getPrediction, predictBody, okServer, jsToNumber,
      trimChars, trimL, parseRatChars, splitOnExpMarker, parseMantissa,
      parseExpChars, splitOnChar, parseNatChars, parseNatAux]

/-- C2, amended: per prediction request the client layer transforms the
caller-supplied value before the pipeline sees it — the form applies the
`Number()` coercion to the text-field state and the api module wraps the
coerced value in a one-element array inside an object, so the backend
receives exactly `{ input: [Number(text)] }`. -/
theorem c2_client_sends_coerced_wrapped
    (server : PredictRequest → Except JsError PredictResponse) (s : String) :
    (appPredict server s).sent = { input := [jsToNumber s] } :=
  appPredict_sent server s

/-- C3, counterexample: the claim that the form and client glue do
exactly two things per interaction (forward one numeric value, display
the returned scalar) is false on the code — on a failed request the
api module additionally logs `Prediction Error:` to the console, a
third observable behaviour. -/
theorem c3_extra_logging_counterexample :
    (appPredict failServer "1").logs = [LogLine.errorLog demoErr] ∧
      (appPredict failServer "1").logs ≠ [] := by
  refine ⟨rfl, by decide⟩

/-- C3, amended: on a successful interaction the form and client glue do
exactly the two claimed things — they forward the one `Number()`-coerced
value to the predict endpoint and display the returned scalar unchanged,
logging nothing; on a failed request they additionally log the error to
the console and display nothing. -/
theorem c3_success_forward_display
    (server1 server2 : PredictRequest → Except JsError PredictResponse)
    (s1 s2 : String) (resp : PredictResponse) (e : JsError)
    (hok : server1 { input := [jsToNumber s1] } = Except.ok resp)
    (herr : server2 { input := [jsToNumber s2] } = Except.error e) :
    (appPredict server1 s1).sent = { input := [jsToNumber s1] } ∧
      displayedOf (appPredict server1 s1) = some resp.prediction ∧
      (appPredict server1 s1).logs = [] ∧
      (appPredict server2 s2).sent = { input := [jsToNumber s2] } ∧
      displayedOf (appPredict server2 s2) = none ∧
      (appPredict server2 s2).logs = [LogLine.errorLog e] := by
  refine ⟨appPredict_sent server1 s1, ?_, ?_, appPredict_sent server2 s2, ?_, ?_⟩ <;>
    simp [appPredict, getPrediction, displayedOf, predictBody, hok, herr]

/-- C3, witness: the amended statement at a concrete succeeding backend
and a concrete failing backend. -/
theorem c3_success_forward_display_witness :
    (appPredict okServer "2").sent = { input := [jsToNumber "2"] } ∧
      displayedOf (appPredict okServer "2") = some (7 : ℚ) ∧
      (appPredict okServer "2").logs = [] ∧
      (appPredict failServer "1").sent = { input := [jsToNumber "1"] } ∧
      displayedOf (appPredict failServer "1") = none ∧
      (appPredict failServer "1").logs = [LogLine.errorLog demoErr] :=
  c3_success_forward_display okServer failServer "2" "1" { prediction := 7 }
    demoErr rfl rfl

/-- C9: for every value `v` passed to `getPrediction`, the body posted
to the `predict/` endpoint is exactly `{ input: [v] }`, and on success
the value returned is exactly the `prediction` field of the response
body. -/
theorem c9_body_and_result
    (server : PredictRequest → Except JsError PredictResponse)
    (v : JsNum) (resp : PredictResponse)
    (h : server (predictBody v) = Except.ok resp) :
    predictBody v = { input := [v] } ∧
      (getPrediction server v).value = some resp.prediction := by
  exact ⟨rfl, by simp [getPrediction, h]⟩

/-- C9, witness: the statement at the concrete backend `okServer`. -/
theorem c9_body_and_result_witness :
    predictBody (JsNum.num 2) = { input := [JsNum.num 2] } ∧
      (getPrediction okServer (JsNum.num 2)).value = some (7 : ℚ) :=
  c9_body_and_result okServer (JsNum.num 2) { prediction := 7 } rfl

/-- C10: the client applies the `Number()` coercion to the text-field
state before sending — the empty input box is sent as `0`, text outside
the numeric grammar (signed decimals with optional exponent) is sent as
`NaN`, exponent notation such as `"1e5"` is sent as its numeric value
`100000`, and for every text state the transmitted body holds the
coerced number, never the raw text. -/
theorem c10_number_coercion
    (server : PredictRequest → Except JsError PredictResponse)
    (s t : String) (h1 : trimChars t.data ≠ [])
    (h2 : parseRatChars (trimChars t.data) = none) :
    jsToNumber "" = JsNum.num 0 ∧ jsToNumber t = JsNum.nan ∧
      jsToNumber "1e5" = JsNum.num 100000 ∧
      (appPredict server s).sent = { input := [jsToNumber s] } := by
  refine ⟨rfl, ?_, ?_, appPredict_sent server s⟩
  · simp [jsToNumber, h1, h2]
  · simp +decide [jsToNumber, trimChars, trimL, parseRatChars, splitOnExpMarker,
      parseMantissa, parseExpChars, splitOnChar, parseNatChars, parseNatAux]
    norm_num

/-- C10, witness: the statement at the empty input box and the
non-numeric text `"abc"`. -/
theorem c10_number_coercion_witness :
    jsToNumber "" = JsNum.num 0 ∧ jsToNumber "abc" = JsNum.nan ∧
      jsToNumber "1e5" = JsNum.num 100000 ∧
      (appPredict okServer "").sent = { input := [jsToNumber ""] } :=
  c10_number_coercion okServer "" "abc" (by decide) (by decide)

/-! ### Concrete evaluation helpers for the pipeline demo -/

lemma demo_normalize_eval : normalize demoCfg demoRecord = Except.ok demoTyped := by
  simp +decide [normalize, schemaFieldNames, catFieldNames, normCont, normCat,
    normValue, classifyRange, repValue, lookupR, containsStr, demoCfg,
    demoRecord, demoTyped,
    trimChars, trimL, leads, splitOnChar, parseNatChars, parseNatAux,
    parseRatChars, splitOnExpMarker, parseMantissa, parseExpChars]
  norm_num

lemma demo_clean_eval : clean demoCfg demoTyped demoStats = Except.ok demoClean := by
  simp +decide [clean, cleanCont, cleanCat, contFill, catFill, catFieldNames,
    clipStats, clip, loBound, hiBound, lookupR, containsStr, demoCfg, demoStats,
    demoTyped, demoClean]
  norm_num

lemma demo_pipeline_eval :
    pipeline demoCfg demoStats demoRecord = Except.ok demoFeatureVec := by
  simp only [pipeline, demo_normalize_eval, demo_clean_eval]
  simp +decide [engineer, engCont, engDerived, engOrd, engNom, rankOf,
    sortLabels, insertSorted, oneHotName, lookupR, containsStr, demoCfg,
    demoClean, demoFeatureVec]
  norm_num

/-! ### Claim theorems for the pipeline (modelled from the spec) -/

/-- C4: the representative-value rule maps a closed textual range
`"a-b"` to the midpoint `(a+b)/2` and an open-ended range
(`"more than N"` / `"less than N"`) to `N` plus or minus the configured
half-step; in particular the raw value `"1-2"` for
`study_hours_per_day` is normalized to exactly `3/2` before any model
scoring occurs. -/
theorem c4_range_midpoint :
    (∀ hs a b : ℚ, repValue hs (RangeForm.closed a b) = (a + b) / 2)
    ∧ (∀ hs n : ℚ, repValue hs (RangeForm.moreThan n) = n + hs)
    ∧ (∀ hs n : ℚ, repValue hs (RangeForm.lessThan n) = n - hs)
    ∧ classifyRange "1-2" = some (RangeForm.closed 1 2)
    ∧ normalize demoCfg demoRecord = Except.ok
        [ ("study_hours_per_day", TypedValue.cont (3/2))
        , ("work_hours_per_week", TypedValue.cont 10)
        , ("sleep_quality", TypedValue.cat "Medium")
        , ("major", TypedValue.cat "CS") ] := by
  refine ⟨fun _ _ _ => rfl, fun _ _ => rfl, fun _ _ => rfl, ?_, demo_normalize_eval⟩
  simp +decide [classifyRange, trimChars, trimL, leads, splitOnChar,
    parseNatChars, parseNatAux, parseRatChars, splitOnExpMarker, parseMantissa,
    parseExpChars]

/-- C5: outlier clipping to `[Q1 − k·IQR, Q3 + k·IQR]` is the identity
on every value already inside the bounds, and clipping is idempotent on
every value. -/
theorem c5_clip_identity_idempotent (cs : ContStats) (k v w : ℚ)
    (h1 : loBound cs k ≤ v) (h2 : v ≤ hiBound cs k) :
    clipStats cs k v = v ∧
      clipStats cs k (clipStats cs k w) = clipStats cs k w := by
  constructor
  · rw [clipStats, clip, min_eq_right h2, max_eq_right h1]
  · simp only [clipStats, clip, max_def, min_def]
    split_ifs <;> first | rfl | linarith

/-- C5, witness: the statement at the demonstration statistics, with
`v = 3` inside the bounds and `w = 100` outside them. -/
theorem c5_clip_witness :
    clipStats { median := 3, q1 := 2, q3 := 5 } (3/2) 3 = 3 ∧
      clipStats { median := 3, q1 := 2, q3 := 5 } (3/2)
          (clipStats { median := 3, q1 := 2, q3 := 5 } (3/2) 100) =
        clipStats { median := 3, q1 := 2, q3 := 5 } (3/2) 100 :=
  c5_clip_identity_idempotent { median := 3, q1 := 2, q3 := 5 } (3/2) 3 100
    (by norm_num [loBound]) (by norm_num [hiBound])

/-- C7: the composed pipeline `engineer(clean(normalize(r)))` under one
frozen configuration and frozen column statistics is deterministic — two
runs on the same raw record that both succeed yield identical feature
vectors. -/
theorem c7_pipeline_deterministic (cfg : PipelineConfig) (stats : ColumnStats)
    (r : RawRecord) (v1 v2 : FeatureVector)
    (h1 : pipeline cfg stats r = Except.ok v1)
    (h2 : pipeline cfg stats r = Except.ok v2) : v1 = v2 := by
  rw [h1] at h2
  exact Except.ok.inj h2

/-- C7, witness: two runs of the demo pipeline yield the same concrete
feature vector. -/
theorem c7_pipeline_deterministic_witness : demoFeatureVec = demoFeatureVec :=
  c7_pipeline_deterministic demoCfg demoStats demoRecord demoFeatureVec
    demoFeatureVec demo_pipeline_eval demo_pipeline_eval

/-! ### Association-list and fill lemmas -/

lemma lookupR_mem {α : Type} {l : List (String × α)} {f : String} {v : α}
    (h : lookupR l f = some v) : (f, v) ∈ l := by
  induction l with
  | nil => simp [lookupR] at h
  | cons p rest ih =>
    obtain ⟨k, w⟩ := p
    by_cases hk : k = f
    · subst hk
      simp [lookupR] at h
      subst h
      exact List.mem_cons_self _ _
    · simp [lookupR, hk] at h
      exact List.mem_cons_of_mem _ (ih h)

lemma lookup_of_mem_names {α : Type} {l : List (String × α)} {f : String}
    (h : f ∈ l.map Prod.fst) : ∃ v, lookupR l f = some v := by
  induction l with
  | nil => simp at h
  | cons p rest ih =>
    obtain ⟨k, w⟩ := p
    by_cases hk : k = f
    · exact ⟨w, by simp [lookupR, hk]⟩
    · rcases (show f = k ∨ ∃ x, (f, x) ∈ rest by simpa using h) with h1 | ⟨x, h1⟩
      · exact absurd h1.symm hk
      · obtain ⟨v, hv⟩ := ih (List.mem_map_of_mem Prod.fst h1)
        exact ⟨v, by simp [lookupR, hk, hv]⟩

lemma lookup_isSome_of_mem_names {cv : List (String × ℚ)} {names : List String}
    {f : String} (hn : cv.map Prod.fst = names) (h : f ∈ names) :
    (lookupR cv f).isSome = true := by
  obtain ⟨q, hq⟩ := lookup_of_mem_names (l := cv) (f := f) (by rw [hn]; exact h)
  simp [hq]

lemma containsStr_iff_mem {l : List String} {x : String} :
    containsStr l x = true ↔ x ∈ l := by
  induction l with
  | nil => simp [containsStr]
  | cons y ys ih =>
    simp only [containsStr, Bool.or_eq_true, beq_iff_eq, ih, List.mem_cons]
    constructor
    · rintro (h | h)
      exacts [Or.inl h.symm, Or.inr h]
    · rintro (h | h)
      exacts [Or.inl h.symm, Or.inr h]

lemma rankOf_isSome_of_mem {labels : List String} {l : String} (h : l ∈ labels) :
    (rankOf labels l).isSome = true := by
  induction labels with
  | nil => simp at h
  | cons x xs ih =>
    by_cases hx : x = l
    · simp [rankOf, hx]
    · rcases List.mem_cons.mp h with h1 | h1
      · exact absurd h1.symm hx
      · simp [rankOf, hx, ih h1]

lemma contFill_isSome (cs : ContStats) {o : Option TypedValue}
    (h : isCatVal o = false) : ∃ q, contFill cs o = some q := by
  match o with
  | none => exact ⟨cs.median, rfl⟩
  | some (TypedValue.cont q) => exact ⟨q, rfl⟩
  | some TypedValue.missing => exact ⟨cs.median, rfl⟩
  | some (TypedValue.cat lab) => simp [isCatVal] at h

lemma catFill_isSome (cs : CatStats) {o : Option TypedValue}
    (h : isContVal o = false) : ∃ l, catFill cs o = some l := by
  match o with
  | none => exact ⟨cs.mode, rfl⟩
  | some (TypedValue.cat lab) => exact ⟨lab, rfl⟩
  | some TypedValue.missing => exact ⟨cs.mode, rfl⟩
  | some (TypedValue.cont q) => simp [isContVal] at h

/-! ### Structure lemmas for the cleaning stage -/

lemma cleanCont_ok_names {k : ℚ} {t : TypedRecord}
    {stats : List (String × ContStats)} {fs : List String}
    {out : List (String × ℚ)} (h : cleanCont k t stats fs = Except.ok out) :
    out.map Prod.fst = fs := by
  induction fs generalizing out with
  | nil =>
    simp only [cleanCont] at h
    injection h with h2
    subst h2
    rfl
  | cons f fs ih =>
    simp only [cleanCont] at h
    cases hs : lookupR stats f with
    | none => simp [hs] at h
    | some cs =>
      simp only [hs] at h
      cases hq : contFill cs (lookupR t f) with
      | none => simp [hq] at h
      | some q =>
        simp only [hq] at h
        cases hr : cleanCont k t stats fs with
        | error e => simp [hr] at h
        | ok rest =>
          simp only [hr] at h
          injection h with h2
          subst h2
          simp [ih hr]

lemma cleanCat_ok_spec {t : TypedRecord} {stats : List (String × CatStats)}
    {fs : List String} {out : List (String × String)}
    (h : cleanCat t stats fs = Except.ok out) :
    out.map Prod.fst = fs ∧
      ∀ p ∈ out, ∃ cs, lookupR stats p.1 = some cs ∧
        containsStr cs.vocab p.2 = true := by
  induction fs generalizing out with
  | nil =>
    simp only [cleanCat] at h
    injection h with h2
    subst h2
    exact ⟨rfl, by simp⟩
  | cons f fs ih =>
    simp only [cleanCat] at h
    cases hs : lookupR stats f with
    | none => simp [hs] at h
    | some cs =>
      simp only [hs] at h
      cases hl : catFill cs (lookupR t f) with
      | none => simp [hl] at h
      | some l =>
        simp only [hl] at h
        cases hb : containsStr cs.vocab l with
        | false => simp [hb] at h
        | true =>
          simp only [hb] at h
          cases hr : cleanCat t stats fs with
          | error e => simp [hr] at h
          | ok rest =>
            simp only [hr] at h
            injection h with h2
            subst h2
            obtain ⟨hn, hv⟩ := ih hr
            refine ⟨by simp [hn], ?_⟩
            intro p hp
            rcases List.mem_cons.mp hp with h1 | h1
            · subst h1
              exact ⟨cs, hs, hb⟩
            · exact hv p h1

lemma cleanCont_ok_of (k : ℚ) (t : TypedRecord)
    (stats : List (String × ContStats)) :
    ∀ fs : List String,
      (∀ f ∈ fs, (lookupR stats f).isSome = true ∧
        isCatVal (lookupR t f) = false) →
      ∃ out, cleanCont k t stats fs = Except.ok out := by
  intro fs
  induction fs with
  | nil => exact fun _ => ⟨[], rfl⟩
  | cons f fs ih =>
    intro hall
    obtain ⟨hs1, hk1⟩ := hall f (List.mem_cons_self f fs)
    obtain ⟨cs, hcs⟩ := Option.isSome_iff_exists.mp hs1
    obtain ⟨q, hq⟩ := contFill_isSome cs hk1
    obtain ⟨rest, hrest⟩ := ih (fun g hg => hall g (List.mem_cons_of_mem f hg))
    exact ⟨(f, clipStats cs k q) :: rest, by simp only [cleanCont, hcs, hq, hrest]⟩

lemma cleanCat_unseen (t : TypedRecord) (stats : List (String × CatStats))
    (f l : String) (cs : CatStats)
    (hv : lookupR t f = some (TypedValue.cat l))
    (hs : lookupR stats f = some cs)
    (hun : containsStr cs.vocab l = false) :
    ∀ fs : List String,
      (∀ g ∈ fs, (lookupR stats g).isSome = true) →
      (∀ g ∈ fs, isContVal (lookupR t g) = false) →
      f ∈ fs →
      ∃ f' l', cleanCat t stats fs =
        Except.error (PipeError.unseenCategory f' l') := by
  intro fs
  induction fs with
  | nil => intro _ _ hf; simp at hf
  | cons f1 fs1 ih =>
    intro hstats hkind hf
    obtain ⟨cs1, hcs1⟩ :=
      Option.isSome_iff_exists.mp (hstats f1 (List.mem_cons_self f1 fs1))
    obtain ⟨l1, hl1⟩ :=
      catFill_isSome cs1 (hkind f1 (List.mem_cons_self f1 fs1))
    cases hb : containsStr cs1.vocab l1 with
    | false =>
      exact ⟨f1, l1, by simp [cleanCat, hcs1, hl1, hb]⟩
    | true =>
      have hfin : f ∈ fs1 := by
        rcases List.mem_cons.mp hf with h1 | h1
        · exfalso
          subst h1
          rw [hs] at hcs1
          injection hcs1 with hcs2
          subst hcs2
          rw [hv] at hl1
          simp [catFill] at hl1
          subst hl1
          rw [hun] at hb
          exact Bool.noConfusion hb
        · exact h1
      obtain ⟨f', l', herr⟩ :=
        ih (fun g hg => hstats g (List.mem_cons_of_mem f1 hg))
          (fun g hg => hkind g (List.mem_cons_of_mem f1 hg)) hfin
      exact ⟨f', l', by simp only [cleanCat, hcs1, hl1, hb, herr]⟩

/-! ### Structure lemmas for the feature-engineering stage -/

lemma engCont_ok (cv : List (String × ℚ)) :
    ∀ fs : List String,
      (∀ f ∈ fs, ∃ q, lookupR cv f = some q) →
      ∃ out, engCont cv fs = Except.ok out ∧ out.map Prod.fst = fs := by
  intro fs
  induction fs with
  | nil => exact fun _ => ⟨[], rfl, rfl⟩
  | cons f fs ih =>
    intro hall
    obtain ⟨q, hq⟩ := hall f (List.mem_cons_self f fs)
    obtain ⟨rest, hrest, hnames⟩ :=
      ih (fun g hg => hall g (List.mem_cons_of_mem f hg))
    exact ⟨(f, q) :: rest, by simp only [engCont, hq, hrest], by simp [hnames]⟩

lemma engDerived_ok (cv : List (String × ℚ)) :
    ∀ ds : List DerivedSpec,
      (∀ d ∈ ds, derivedRefsOk cv d = true) →
      ∃ out, engDerived cv ds = Except.ok out ∧
        out.map Prod.fst = ds.map DerivedSpec.name := by
  intro ds
  induction ds with
  | nil => exact fun _ => ⟨[], rfl, rfl⟩
  | cons d ds ih =>
    intro hall
    obtain ⟨rest, hrest, hnames⟩ :=
      ih (fun g hg => hall g (List.mem_cons_of_mem d hg))
    have hd := hall d (List.mem_cons_self d ds)
    cases d with
    | ratioOf n nf df =>
      obtain ⟨h1, h2⟩ :=
        Bool.and_eq_true_iff.mp (by simpa [derivedRefsOk] using hd)
      obtain ⟨a, ha⟩ := Option.isSome_iff_exists.mp h1
      obtain ⟨b, hb⟩ := Option.isSome_iff_exists.mp h2
      exact ⟨(n, a / (b + 1)) :: rest,
        by simp only [engDerived, ha, hb, hrest],
        by simp [hnames, DerivedSpec.name]⟩
    | sumOf n f1 f2 =>
      obtain ⟨h1, h2⟩ :=
        Bool.and_eq_true_iff.mp (by simpa [derivedRefsOk] using hd)
      obtain ⟨a, ha⟩ := Option.isSome_iff_exists.mp h1
      obtain ⟨b, hb⟩ := Option.isSome_iff_exists.mp h2
      exact ⟨(n, a + b) :: rest,
        by simp only [engDerived, ha, hb, hrest],
        by simp [hnames, DerivedSpec.name]⟩

lemma engOrd_ok (kv : List (String × String)) :
    ∀ ofs : List (String × List String),
      (∀ p ∈ ofs, ∃ lab, lookupR kv p.1 = some lab ∧
        (rankOf p.2 lab).isSome = true) →
      ∃ out, engOrd kv ofs = Except.ok out ∧
        out.map Prod.fst = ofs.map Prod.fst := by
  intro ofs
  induction ofs with
  | nil => exact fun _ => ⟨[], rfl, rfl⟩
  | cons p ofs ih =>
    intro hall
    obtain ⟨f, labels⟩ := p
    obtain ⟨lab, hlab, hrk⟩ := hall (f, labels) (List.mem_cons_self _ _)
    obtain ⟨rank, hrank⟩ := Option.isSome_iff_exists.mp hrk
    obtain ⟨rest, hrest, hnames⟩ :=
      ih (fun g hg => hall g (List.mem_cons_of_mem _ hg))
    exact ⟨(f, (rank : ℚ)) :: rest,
      by simp only [engOrd, hlab, hrank, hrest], by simp [hnames]⟩

lemma engNom_ok (kv : List (String × String)) :
    ∀ nfs : List (String × List String),
      (∀ p ∈ nfs, ∃ lab, lookupR kv p.1 = some lab ∧
        containsStr p.2 lab = true) →
      ∃ out, engNom kv nfs = Except.ok out ∧
        out.map Prod.fst =
          nfs.flatMap (fun p => (sortLabels p.2).map (oneHotName p.1)) := by
  intro nfs
  induction nfs with
  | nil => exact fun _ => ⟨[], rfl, rfl⟩
  | cons p nfs ih =>
    intro hall
    obtain ⟨f, labels⟩ := p
    obtain ⟨lab, hlab, hcontains⟩ := hall (f, labels) (List.mem_cons_self _ _)
    obtain ⟨rest, hrest, hnames⟩ :=
      ih (fun g hg => hall g (List.mem_cons_of_mem _ hg))
    refine ⟨((sortLabels labels).map
        (fun lb => (oneHotName f lb, if lb = lab then (1 : ℚ) else 0))) ++ rest,
      ?_, ?_⟩
    · simp only [engNom, hlab, hcontains, hrest]
    · simp [hnames, List.map_map, Function.comp]

/-! ### Claim theorems C6 and C8 -/

/-- C6: at inference, a categorical (nominal or ordinal) value outside
the trained vocabulary makes `clean` fail with `UnseenCategoryError`;
under complete frozen statistics it never returns a clean record, so the
unseen label is never silently mapped to a bucket or encoded as a zero
vector. -/
theorem c6_unseen_category_raises (cfg : PipelineConfig) (stats : ColumnStats)
    (t : TypedRecord) (f l : String) (cs : CatStats)
    (hcover : statsCoverBool cfg stats t = true)
    (hf : f ∈ catFieldNames cfg)
    (hv : lookupR t f = some (TypedValue.cat l))
    (hs : lookupR stats.catStats f = some cs)
    (hun : containsStr cs.vocab l = false) :
    (∃ f' l', clean cfg t stats =
      Except.error (PipeError.unseenCategory f' l')) ∧
      ∀ c, clean cfg t stats ≠ Except.ok c := by
  unfold statsCoverBool at hcover
  obtain ⟨hcont, hcat⟩ := Bool.and_eq_true_iff.mp hcover
  have hcontAll := List.all_eq_true.mp hcont
  have hcatAll := List.all_eq_true.mp hcat
  obtain ⟨cv, hcv⟩ := cleanCont_ok_of stats.k t stats.contStats cfg.contFields
    (fun g hg => by
      obtain ⟨h1, h2⟩ := Bool.and_eq_true_iff.mp (hcontAll g hg)
      exact ⟨h1, by simpa using h2⟩)
  obtain ⟨f', l', herr⟩ := cleanCat_unseen t stats.catStats f l cs hv hs hun
    (catFieldNames cfg)
    (fun g hg => (Bool.and_eq_true_iff.mp (hcatAll g hg)).1)
    (fun g hg => by simpa using (Bool.and_eq_true_iff.mp (hcatAll g hg)).2)
    hf
  refine ⟨⟨f', l', by simp only [clean, hcv, herr]⟩, ?_⟩
  intro c hcl
  simp [clean, hcv, herr] at hcl

/-- C6, witness: the label `"Biology"` for `major` is declared in the
schema but absent from the trained vocabulary, and `clean` fails with
`UnseenCategoryError`. -/
theorem c6_unseen_category_raises_witness :
    ∃ f' l', clean demoCfg demoUnseenTyped demoStats =
      Except.error (PipeError.unseenCategory f' l') :=
  (c6_unseen_category_raises demoCfg demoStats demoUnseenTyped "major" "Biology"
    { mode := "CS", vocab := ["CS", "Arts"] } (by decide) (by decide)
    (by decide) (by decide) (by decide)).1

/-- C8: for every raw record that normalizes and cleans successfully
under frozen artifacts whose derived features reference declared
continuous fields and whose trained vocabularies lie inside the declared
label sets, `engineer` succeeds and produces a feature vector whose
names, order, and length exactly equal the frozen `featureSchema`: raw
continuous fields in declaration order, then derived fields, then
ordinal fields, then nominal fields one-hot expanded in alphabetically
sorted label order. -/
theorem c8_feature_schema_conformance (cfg : PipelineConfig)
    (stats : ColumnStats) (r : RawRecord) (t : TypedRecord) (c : CleanRecord)
    (hwf : derivedWF cfg = true)
    (hcompat : statsCompat cfg stats = true)
    (_hnorm : normalize cfg r = Except.ok t)
    (hc : clean cfg t stats = Except.ok c) :
    ∃ v, engineer cfg c = Except.ok v ∧
      v.map Prod.fst = featureSchema cfg ∧
      v.length = (featureSchema cfg).length := by
  simp only [clean] at hc
  cases hcc : cleanCont stats.k t stats.contStats cfg.contFields with
  | error e => simp [hcc] at hc
  | ok cv =>
    simp only [hcc] at hc
    cases hck : cleanCat t stats.catStats (catFieldNames cfg) with
    | error e => simp [hck] at hc
    | ok kv =>
      simp only [hck] at hc
      injection hc with hc2
      subst hc2
      have hcvn : cv.map Prod.fst = cfg.contFields := cleanCont_ok_names hcc
      obtain ⟨hkvn, hkvv⟩ := cleanCat_ok_spec hck
      have hcont : ∀ f ∈ cfg.contFields, ∃ q, lookupR cv f = some q :=
        fun f hf => lookup_of_mem_names (by rw [hcvn]; exact hf)
      obtain ⟨v1, hv1, hn1⟩ := engCont_ok cv cfg.contFields hcont
      unfold derivedWF at hwf
      have hwfAll := List.all_eq_true.mp hwf
      have hder : ∀ d ∈ cfg.derived, derivedRefsOk cv d = true := by
        intro d hd
        have hdd := hwfAll d hd
        cases d with
        | ratioOf n nf df =>
          obtain ⟨h1, h2⟩ := Bool.and_eq_true_iff.mp (by simpa using hdd)
          simp only [derivedRefsOk]
          exact Bool.and_eq_true_iff.mpr
            ⟨lookup_isSome_of_mem_names hcvn (containsStr_iff_mem.mp h1),
              lookup_isSome_of_mem_names hcvn (containsStr_iff_mem.mp h2)⟩
        | sumOf n f1 f2 =>
          obtain ⟨h1, h2⟩ := Bool.and_eq_true_iff.mp (by simpa using hdd)
          simp only [derivedRefsOk]
          exact Bool.and_eq_true_iff.mpr
            ⟨lookup_isSome_of_mem_names hcvn (containsStr_iff_mem.mp h1),
              lookup_isSome_of_mem_names hcvn (containsStr_iff_mem.mp h2)⟩
      obtain ⟨v2, hv2, hn2⟩ := engDerived_ok cv cfg.derived hder
      unfold statsCompat at hcompat
      have hscAll := List.all_eq_true.mp hcompat
      have hordnom : ∀ p ∈ cfg.ordFields ++ cfg.nomFields,
          ∃ lab, lookupR kv p.1 = some lab ∧ containsStr p.2 lab = true := by
        intro p hp
        have hp1 : p.1 ∈ catFieldNames cfg := by
          unfold catFieldNames
          exact List.mem_map_of_mem Prod.fst hp
        obtain ⟨lab, hlab⟩ := lookup_of_mem_names (by rw [hkvn]; exact hp1)
        obtain ⟨ds, hds, hdv⟩ := hkvv (p.1, lab) (lookupR_mem hlab)
        have hsc := hscAll p hp
        simp only [hds] at hsc
        exact ⟨lab, hlab,
          List.all_eq_true.mp hsc lab (containsStr_iff_mem.mp hdv)⟩
      obtain ⟨v3, hv3, hn3⟩ := engOrd_ok kv cfg.ordFields (fun p hp => by
        obtain ⟨lab, h1, h2⟩ := hordnom p (List.mem_append_left _ hp)
        exact ⟨lab, h1, rankOf_isSome_of_mem (containsStr_iff_mem.mp h2)⟩)
      obtain ⟨v4, hv4, hn4⟩ := engNom_ok kv cfg.nomFields
        (fun p hp => hordnom p (List.mem_append_right _ hp))
      have hnames : (v1 ++ v2 ++ v3 ++ v4).map Prod.fst = featureSchema cfg := by
        simp [featureSchema, hn1, hn2, hn3, hn4]
      refine ⟨v1 ++ v2 ++ v3 ++ v4, ?_, hnames, ?_⟩
      · simp only [engineer, hv1, hv2, hv3, hv4]
      · simpa using congrArg List.length hnames

/-- C8, witness: the statement at the demo configuration, statistics,
and record. -/
theorem c8_feature_schema_conformance_witness :
    ∃ v, engineer demoCfg demoClean = Except.ok v ∧
      v.map Prod.fst = featureSchema demoCfg ∧
      v.length = (featureSchema demoCfg).length :=
  c8_feature_schema_conformance demoCfg demoStats demoRecord demoTyped demoClean
    (by decide) (by decide) demo_normalize_eval demo_clean_eval

end StudentPipeline
